import Mathlib

/-!
Verification of the map-directory state store of htmap (src/htmap/htio.py).

The store is a thin persistence layer over the filesystem.  We embed it
shallowly:

* a filesystem is a function from paths (lists of name segments) to optional
  file contents, where a file content is a list of natural numbers standing
  for its bytes;
* text files are written through an explicit character/byte conversion
  (Python encodes text as UTF-8; our written text is plain ASCII, and we model
  the conversion as the bijection between a character and its code point);
* the object codec (gzip + cloudpickle, external injected dependencies of
  htio.py) is modelled as a self-delimiting frame encoding of a value type
  PyObj that includes closures; gzip compression is a bijection on byte
  streams that cancels in every save/load pair, so files hold the
  decompressed frame bytes directly;
* fallible operations return Except PyErr; the PyErr type has one
  constructor per Python exception class the embedded code can raise, plus
  the store-level error taxonomy named by the specification (NotFoundError,
  CorruptStateError, DeserializationError), which the code itself never
  raises, so that specification claims about those errors are statable.
-/

namespace Htio

/-- Errors: the first group are the Python built-in exceptions the code in
htio.py can actually raise; the second group is the specification's error
taxonomy, included so that claims mentioning those errors can be stated. -/
inductive PyErr where
  | fileNotFoundError
  | valueError
  | eofError
  | unpicklingError
  | notFoundError
  | corruptStateError
  | deserializationError
  deriving DecidableEq, Repr

/-- How an iteration over a Python generator terminates: a normal end of
iteration (StopIteration) or a raised exception. -/
inductive IterEnd where
  | stopped
  | raised (e : PyErr)
  deriving DecidableEq, Repr

/-! ## Python text built-ins

Models of the Python built-ins str, int, str.strip and str.splitlines, which
htio.py uses for the scalar record store and the append log store.  Strings
are lists of characters. -/

/-- Decimal digit character for a digit d < 10. -/
def digitChar (d : Nat) : Char := Char.ofNat (48 + d)

/-- Model of Python str(n) for a natural number n: its decimal digits,
most significant first, with no sign and no padding. -/
def natStr (n : Nat) : List Char :=
  if n = 0 then ['0'] else ((Nat.digits 10 n).map digitChar).reverse

/-- Model of Python str(i) for an int i: a minus sign followed by the digits
of the absolute value when i is negative, the plain digits otherwise. -/
def pyStr (i : Int) : List Char :=
  if i < 0 then '-' :: natStr (-i).toNat else natStr i.toNat

/-- Whether a character is a decimal digit. -/
def isDigitChar (c : Char) : Bool := 48 ≤ c.toNat && c.toNat ≤ 57

/-- Numeric value of a digit character. -/
def charVal (c : Nat) : Nat := c - 48

/-- Model of Python int(s) on an unsigned decimal string: defined exactly on
nonempty all-digit strings, returning none (a ValueError in Python) on the
empty string or any string with a non-digit character. -/
def parseNat (s : List Char) : Option Nat :=
  if s ≠ [] ∧ s.all isDigitChar then
    some (Nat.ofDigits 10 ((s.map fun c => charVal c.toNat).reverse))
  else none

/-- Model of Python int(s): an optional leading minus sign followed by
decimal digits.  (Python int also accepts surrounding whitespace, a plus
sign and underscores; no string this store writes or strips uses those, so
the model covers the store's domain.) -/
def pyInt (s : List Char) : Option Int :=
  match s with
  | '-' :: rest => (parseNat rest).map (fun n => -(n : Int))
  | _ => (parseNat s).map (fun n => (n : Int))

/-- Whitespace characters recognised by the model of str.strip. -/
def isSpaceChar (c : Char) : Bool := c = ' ' || c = '\n' || c = '\t' || c = '\r'

/-- Model of Python str.strip(): remove leading and trailing whitespace. -/
def pyStrip (s : List Char) : List Char :=
  ((s.dropWhile isSpaceChar).reverse.dropWhile isSpaceChar).reverse

/-- Model of Python str.splitlines() for newline-terminated text: split at
every newline character; a trailing newline does not produce a final empty
line. -/
def pySplitlines : List Char → List (List Char)
  | [] => []
  | c :: rest =>
    if c = '\n' then [] :: pySplitlines rest
    else
      match pySplitlines rest with
      | [] => [[c]]
      | l :: ls => (c :: l) :: ls

/-! ## Round-trip lemmas for the text built-ins -/

theorem digitChar_toNat {d : Nat} (h : d < 10) : (digitChar d).toNat = 48 + d := by
  interval_cases d <;> decide

theorem isDigitChar_digitChar {d : Nat} (h : d < 10) : isDigitChar (digitChar d) = true := by
  interval_cases d <;> decide

theorem charVal_digitChar {d : Nat} (h : d < 10) : charVal (digitChar d).toNat = d := by
  rw [digitChar_toNat h]; simp [charVal]

theorem natStr_ne_nil (n : Nat) : natStr n ≠ [] := by
  unfold natStr
  split
  · simp
  · rename_i h
    have : Nat.digits 10 n ≠ [] := Nat.digits_ne_nil_iff_ne_zero.mpr h
    simp [this]

theorem natStr_all_digits (n : Nat) : (natStr n).all isDigitChar = true := by
  unfold natStr
  split
  · decide
  · rw [List.all_eq_true]
    intro c hc
    rw [List.mem_reverse, List.mem_map] at hc
    obtain ⟨d, hd, rfl⟩ := hc
    exact isDigitChar_digitChar (Nat.digits_lt_base (by norm_num) hd)

theorem parseNat_natStr (n : Nat) : parseNat (natStr n) = some n := by
  rcases eq_or_ne n 0 with rfl | h0
  · decide
  · rw [parseNat, if_pos ⟨natStr_ne_nil n, natStr_all_digits n⟩]
    congr 1
    rw [natStr, if_neg h0, List.map_reverse, List.reverse_reverse, List.map_map]
    have hmap : (Nat.digits 10 n).map ((fun c => charVal c.toNat) ∘ digitChar)
        = (Nat.digits 10 n).map id := by
      apply List.map_congr_left
      intro d hd
      exact charVal_digitChar (Nat.digits_lt_base (by norm_num) hd)
    rw [hmap, List.map_id, Nat.ofDigits_digits]

theorem natStr_mem_isDigit {n : Nat} {c : Char} (hc : c ∈ natStr n) :
    isDigitChar c = true := by
  have := natStr_all_digits n
  rw [List.all_eq_true] at this
  exact this c hc

theorem natStr_head_not_minus (n : Nat) :
    ∀ l, natStr n = '-' :: l → False := by
  intro l hl
  have : ('-' : Char) ∈ natStr n := by rw [hl]; exact List.mem_cons_self _ _
  have := natStr_mem_isDigit this
  simp [isDigitChar] at this

theorem pyInt_pyStr (i : Int) : pyInt (pyStr i) = some i := by
  unfold pyStr
  split
  · rename_i h
    simp only [pyInt, parseNat_natStr, Option.map]
    show some (-(((-i).toNat : Nat) : Int)) = some i
    congr 1
    omega
  · rename_i h
    unfold pyInt
    split
    · rename_i rest heq
      exact absurd heq (by intro hh; exact natStr_head_not_minus _ _ hh)
    · rw [parseNat_natStr]
      show some ((i.toNat : Int)) = some i
      congr 1
      omega

theorem pyStr_no_newline (i : Int) : '\n' ∉ pyStr i := by
  intro hmem
  unfold pyStr at hmem
  have hdig : ∀ n : Nat, ('\n' : Char) ∈ natStr n → False := by
    intro n hn
    have := natStr_mem_isDigit hn
    simp [isDigitChar] at this
  split at hmem
  · rcases List.mem_cons.mp hmem with h | h
    · exact absurd h (by decide)
    · exact hdig _ h
  · exact hdig _ hmem

theorem pyStr_no_space (i : Int) : ∀ c ∈ pyStr i, isSpaceChar c = false := by
  intro c hc
  unfold pyStr at hc
  have hdig : ∀ n : Nat, c ∈ natStr n → isSpaceChar c = false := by
    intro n hn
    have := natStr_mem_isDigit hn
    simp only [isDigitChar, Bool.and_eq_true, decide_eq_true_eq] at this
    simp only [isSpaceChar, Bool.or_eq_false_iff, decide_eq_false_iff_not]
    refine ⟨⟨⟨?_, ?_⟩, ?_⟩, ?_⟩ <;> (intro hq; subst hq; revert this; decide)
  split at hc
  · rcases List.mem_cons.mp hc with h | h
    · subst h; decide
    · exact hdig _ h
  · exact hdig _ hc

theorem dropWhile_eq_self_of_none {p : Char → Bool} {s : List Char}
    (h : ∀ c ∈ s, p c = false) : s.dropWhile p = s := by
  cases s with
  | nil => rfl
  | cons c cs => simp [List.dropWhile, h c (List.mem_cons_self _ _)]

theorem pyStrip_of_no_space {s : List Char} (h : ∀ c ∈ s, isSpaceChar c = false) :
    pyStrip s = s := by
  unfold pyStrip
  rw [dropWhile_eq_self_of_none h, dropWhile_eq_self_of_none, List.reverse_reverse]
  intro c hc
  exact h c (List.mem_reverse.mp hc)

theorem pySplitlines_line {l : List Char} (hl : '\n' ∉ l) (r : List Char) :
    pySplitlines (l ++ '\n' :: r) = l :: pySplitlines r := by
  induction l with
  | nil => simp [pySplitlines]
  | cons c cs ih =>
    have hc : c ≠ '\n' := fun h => hl (h ▸ List.mem_cons_self _ _)
    have hcs : '\n' ∉ cs := fun h => hl (List.mem_cons_of_mem _ h)
    rw [List.cons_append, pySplitlines, if_neg hc, ih hcs]

/-! ## Object codec

The object codec of htio.py is gzip plus cloudpickle, both external injected
dependencies of the repository.  Modelled from the spec: values (including
functions and closures capturing lexical state) are serialized into
self-delimiting binary frames; a file written by save_object holds one frame,
and a multi-object stream is a concatenation of frames consumed one frame per
next() call.  The gzip compression layer is a bijection on byte streams that
cancels in every save/load pair, so file contents are the frame bytes. -/

/-- Model universe of picklable Python values: integers, strings, and
closures (a code object together with captured external state). -/
inductive PyObj where
  | int (i : Int)
  | str (s : List Char)
  | closure (code : Nat) (env : List Int)
  deriving DecidableEq, Repr

/-- Encode an integer as a natural number, folding the sign into parity. -/
def encInt (i : Int) : Nat := if 0 ≤ i then 2 * i.toNat else 2 * (-i).toNat - 1

/-- Decode the integer encoded by encInt. -/
def decInt (n : Nat) : Int :=
  if n % 2 = 0 then ((n / 2 : Nat) : Int) else -(((n + 1) / 2 : Nat) : Int)

theorem decInt_encInt (i : Int) : decInt (encInt i) = i := by
  unfold encInt decInt
  split <;> rename_i h
  · rw [if_pos (by omega)]
    omega
  · rw [if_neg (by omega)]
    omega

/-- Modelled from the spec: one self-delimiting frame of the object codec, as
cloudpickle.dump writes it — a tag, a length where needed, and the payload. -/
def pyDump (v : PyObj) : List Nat :=
  match v with
  | .int i => [0, encInt i]
  | .str s => [1, s.length] ++ s.map Char.toNat
  | .closure code env => [2, code, env.length] ++ env.map encInt

/-- Modelled from the spec: decode one frame from the head of a byte stream,
returning the value and the remaining bytes, as one cloudpickle.load call.
An empty stream raises EOFError (pickle ran out of input); a malformed or
truncated frame raises UnpicklingError. -/
def pyLoadOne (bs : List Nat) : Except PyErr (PyObj × List Nat) :=
  match bs with
  | [] => .error .eofError
  | 0 :: rest =>
    match rest with
    | [] => .error .unpicklingError
    | n :: rest2 => .ok (.int (decInt n), rest2)
  | 1 :: rest =>
    match rest with
    | [] => .error .unpicklingError
    | n :: rest2 =>
      if n ≤ rest2.length then
        .ok (.str ((rest2.take n).map Char.ofNat), rest2.drop n)
      else .error .unpicklingError
  | 2 :: rest =>
    match rest with
    | code :: n :: rest2 =>
      if n ≤ rest2.length then
        .ok (.closure code ((rest2.take n).map decInt), rest2.drop n)
      else .error .unpicklingError
    | _ => .error .unpicklingError
  | _ => .error .unpicklingError

theorem pyLoadOne_dump (v : PyObj) (tail : List Nat) :
    pyLoadOne (pyDump v ++ tail) = .ok (v, tail) := by
  cases v with
  | int i =>
    simp [pyDump, pyLoadOne, decInt_encInt]
  | str s =>
    show pyLoadOne (1 :: s.length :: (s.map Char.toNat ++ tail)) = _
    rw [pyLoadOne]
    have hlen : s.length ≤ (s.map Char.toNat ++ tail).length := by
      simp
    rw [if_pos hlen]
    have h1 : (s.map Char.toNat ++ tail).take s.length = s.map Char.toNat := by
      rw [← List.length_map s Char.toNat]
      exact List.take_left _ _
    have h2 : (s.map Char.toNat ++ tail).drop s.length = tail := by
      rw [← List.length_map s Char.toNat]
      exact List.drop_left _ _
    rw [h1, h2, List.map_map]
    congr 2
    rw [show Char.ofNat ∘ Char.toNat = id from funext Char.ofNat_toNat, List.map_id]
  | closure code env =>
    show pyLoadOne (2 :: code :: env.length :: (env.map encInt ++ tail)) = _
    rw [pyLoadOne]
    have hlen : env.length ≤ (env.map encInt ++ tail).length := by
      simp
    rw [if_pos hlen]
    have h1 : (env.map encInt ++ tail).take env.length = env.map encInt := by
      rw [← List.length_map env encInt]
      exact List.take_left _ _
    have h2 : (env.map encInt ++ tail).drop env.length = tail := by
      rw [← List.length_map env encInt]
      exact List.drop_left _ _
    rw [h1, h2, List.map_map]
    congr 2
    rw [show decInt ∘ encInt = id from funext decInt_encInt, List.map_id]

theorem pyDump_ne_nil (v : PyObj) : pyDump v ≠ [] := by
  cases v <;> simp [pyDump]

/-- Model of load_objects' generator loop (while True: yield cloudpickle.load(file)),
run to completion on a byte stream: decode frames until the decoder raises.
The loop body has no break and no return, so the iteration always terminates
by a raised exception — EOFError at a clean end of stream — never by a normal
StopIteration.  The fuel argument only forces termination of the model; every
decoded frame consumes at least one byte, so fuel = length + 1 at the call
site is never exhausted (see loadObjectsAux_frames). -/
def loadObjectsAux (fuel : Nat) (bs : List Nat) : List PyObj × IterEnd :=
  match fuel with
  | 0 => ([], .raised .eofError)
  | fuel + 1 =>
    match pyLoadOne bs with
    | .error e => ([], .raised e)
    | .ok (v, rest) =>
      let r := loadObjectsAux fuel rest
      (v :: r.1, r.2)

/-- Consuming the whole generator of load_objects on a given byte stream:
the values yielded, in order, and how the iteration ended. -/
def loadObjectsRun (bs : List Nat) : List PyObj × IterEnd :=
  loadObjectsAux (bs.length + 1) bs

theorem loadObjectsAux_frames :
    ∀ (vs : List PyObj) (fuel : Nat) (tail : List Nat), tail = vs.flatMap pyDump →
      tail.length < fuel → loadObjectsAux fuel tail = (vs, .raised .eofError) := by
  intro vs
  induction vs with
  | nil =>
    intro fuel tail htail hfuel
    subst htail
    match fuel, hfuel with
    | fuel + 1, _ => rfl
  | cons v vs ih =>
    intro fuel tail htail hfuel
    subst htail
    have hlen : (pyDump v).length ≠ 0 := by
      simpa using pyDump_ne_nil v
    simp only [List.flatMap_cons] at hfuel ⊢
    match fuel, hfuel with
    | fuel + 1, hfuel =>
      show (match pyLoadOne (pyDump v ++ vs.flatMap pyDump) with
        | .error e => ([], IterEnd.raised e)
        | .ok (w, rest) =>
          let r := loadObjectsAux fuel rest
          (w :: r.1, r.2)) = _
      rw [pyLoadOne_dump]
      have hrec : loadObjectsAux fuel (vs.flatMap pyDump) = (vs, .raised .eofError) := by
        apply ih _ _ rfl
        rw [List.length_append] at hfuel
        omega
      simp [hrec]

theorem loadObjectsRun_frames (vs : List PyObj) :
    loadObjectsRun (vs.flatMap pyDump) = (vs, .raised .eofError) :=
  loadObjectsAux_frames vs _ _ rfl (Nat.lt_succ_self _)

/-! ## Filesystem model and the map-directory layout -/

/-- Paths: a list of name segments (a map directory root followed by artifact
names from the fixed name table). -/
abbrev MPath := List (List Char)

/-- Filesystem: what bytes, if any, are stored at each path. -/
abbrev FS := MPath → Option (List Nat)

/-- The filesystem with no files. -/
def emptyFS : FS := fun _ => none

/-- Create or overwrite one file. -/
def writeFS (p : MPath) (content : List Nat) (fs : FS) : FS :=
  fun q => if q = p then some content else fs q

/-- Text files are written through the character/code-point bijection (the
written text is plain ASCII, so the UTF-8 encoding Python applies is exactly
this map). -/
def encText (s : List Char) : List Nat := s.map Char.toNat

/-- Decoding file bytes back to text.  Decoding never fails in the model:
every file a claim reads as text was written by encText, where the
conversion is a bijection (a UnicodeDecodeError on foreign binary content is
not modelled). -/
def decText (bs : List Nat) : List Char := bs.map Char.ofNat

theorem decText_encText (s : List Char) : decText (encText s) = s := by
  unfold decText encText
  rw [List.map_map, show Char.ofNat ∘ Char.toNat = id from funext Char.ofNat_toNat,
    List.map_id]

/-- Model of pathlib Path.write_text: create or overwrite with the encoded text. -/
def write_text (p : MPath) (s : List Char) (fs : FS) : FS := writeFS p (encText s) fs

/-- Model of pathlib Path.read_text: FileNotFoundError when the file is
absent, the decoded text otherwise. -/
def read_text (p : MPath) (fs : FS) : Except PyErr (List Char) :=
  match fs p with
  | none => .error .fileNotFoundError
  | some bs => .ok (decText bs)

/-- Model of open(path, mode="a") followed by one file.write(s): append the
encoded text to the existing content, creating the file first when absent. -/
def appendText (p : MPath) (s : List Char) (fs : FS) : FS :=
  writeFS p (((fs p).getD []) ++ encText s) fs

namespace names

/-- Modelled from the spec: htio.py imports the fixed artifact-name table from
a sibling module (htmap/names.py) that is not among the given sources; the
values follow the directory-layout table of the specification. -/
def NUM_COMPONENTS : List Char := "num_components".toList

/-- Modelled from the spec: fixed name of the batch-identifier log file. -/
def CLUSTER_IDS : List Char := "cluster_ids".toList

/-- Modelled from the spec: fixed name of the inputs directory. -/
def INPUTS_DIR : List Char := "inputs".toList

/-- Modelled from the spec: extension of one input-component file. -/
def INPUT_EXT : List Char := "in".toList

/-- Modelled from the spec: fixed name of the item-descriptors document. -/
def ITEMDATA : List Char := "itemdata".toList

end names

/-! ## Embedding of the operations of htio.py -/

/-- Embedding of save_object(obj, path): with gzip.open(path, mode="wb") as
file: cloudpickle.dump(obj, file).  Creates or overwrites the file at path
with one frame. -/
def save_object (obj : PyObj) (path : MPath) (fs : FS) : FS :=
  writeFS path (pyDump obj) fs

/-- Embedding of load_object(path): with gzip.open(path, mode="rb") as file:
return cloudpickle.load(file) — one frame read from the start of the file.
A missing file raises FileNotFoundError at open. -/
def load_object (path : MPath) (fs : FS) : Except PyErr PyObj :=
  match fs path with
  | none => .error .fileNotFoundError
  | some bs => (pyLoadOne bs).map Prod.fst

/-- Embedding of load_objects(path): open the file and repeatedly yield
cloudpickle.load(file); the result is the full trace of consuming the
returned generator. -/
def load_objects (path : MPath) (fs : FS) : Except PyErr (List PyObj × IterEnd) :=
  match fs path with
  | none => .error .fileNotFoundError
  | some bs => .ok (loadObjectsRun bs)

/-- Embedding of _num_components_path. -/
def _num_components_path (mapDir : MPath) : MPath := mapDir ++ [names.NUM_COMPONENTS]

/-- Embedding of save_num_components: path.write_text(str(num_components)). -/
def save_num_components (mapDir : MPath) (numComponents : Int) (fs : FS) : FS :=
  write_text (_num_components_path mapDir) (pyStr numComponents) fs

/-- Embedding of load_num_components: int(path.read_text()); int raises
ValueError on an empty or non-integer string. -/
def load_num_components (mapDir : MPath) (fs : FS) : Except PyErr Int :=
  match read_text (_num_components_path mapDir) fs with
  | .error e => .error e
  | .ok s =>
    match pyInt s with
    | none => .error .valueError
    | some i => .ok i

/-- Embedding of _cluster_ids_path. -/
def _cluster_ids_path (mapDir : MPath) : MPath := mapDir ++ [names.CLUSTER_IDS]

/-- Embedding of append_cluster_id: open the log in append mode and write
str(cluster_id) + "\n" as one write call. -/
def append_cluster_id (mapDir : MPath) (clusterId : Int) (fs : FS) : FS :=
  appendText (_cluster_ids_path mapDir) (pyStr clusterId ++ ['\n']) fs

/-- The list comprehension of load_cluster_ids: int(cid.strip()) for each
line; the first unparseable line raises ValueError. -/
def parseIdLines : List (List Char) → Except PyErr (List Int)
  | [] => .ok []
  | l :: rest =>
    match pyInt (pyStrip l) with
    | none => .error .valueError
    | some i => (parseIdLines rest).map (fun is => i :: is)

/-- Embedding of load_cluster_ids:
[int(cid.strip()) for cid in path.read_text().splitlines()]. -/
def load_cluster_ids (mapDir : MPath) (fs : FS) : Except PyErr (List Int) :=
  match read_text (_cluster_ids_path mapDir) fs with
  | .error e => .error e
  | .ok s => parseIdLines (pySplitlines s)

/-- Path of one input component, from save_inputs:
map_dir / names.INPUTS_DIR / f"{component}.{names.INPUT_EXT}". -/
def inputPath (mapDir : MPath) (component : Nat) : MPath :=
  mapDir ++ [names.INPUTS_DIR, natStr component ++ '.' :: names.INPUT_EXT]

/-- Embedding of save_inputs: for component, a_and_k in enumerate(args_and_kwargs):
save_object(a_and_k, base_path / f"{component}.{ext}").  Each element models
one (args, kwargs) pair. -/
def save_inputs (mapDir : MPath) (argsAndKwargs : List PyObj) (fs : FS) : FS :=
  argsAndKwargs.enum.foldl
    (fun acc p => save_object p.2 (inputPath mapDir p.1) acc) fs

/-! ## Reader-visible states during save_object

The write of save_object happens at the target path itself: gzip.open(path,
mode="wb") creates or truncates the file in place, and the frame bytes are
then flushed incrementally.  The list below enumerates the filesystem states
a concurrent reader can observe: the state before the call, the state right
after the open truncates the file, one state per partial flush, and the
final state.  No temporary path and rename is involved. -/
def saveObjectStates (obj : PyObj) (path : MPath) (fs : FS) : List FS :=
  fs :: (List.range ((pyDump obj).length + 1)).map
    (fun k => writeFS path ((pyDump obj).take k) fs)

/-! ## Lemmas about the append log -/

/-- The scenario of the append-only-log claim: a sequence of
append_cluster_id calls, one per identifier, in order. -/
def appendAllClusterIds (mapDir : MPath) (ids : List Int) (fs : FS) : FS :=
  ids.foldl (fun acc i => append_cluster_id mapDir i acc) fs

/-- One log line per identifier, newline-terminated, as append_cluster_id
writes them. -/
def idLines (ids : List Int) : List Char :=
  ids.flatMap (fun i => pyStr i ++ ['\n'])

theorem appendAll_content (mapDir : MPath) :
    ∀ (ids : List Int) (fs : FS) (c : List Nat),
      fs (_cluster_ids_path mapDir) = some c →
      appendAllClusterIds mapDir ids fs (_cluster_ids_path mapDir)
        = some (c ++ encText (idLines ids)) := by
  intro ids
  induction ids with
  | nil =>
    intro fs c hc
    simpa [appendAllClusterIds, idLines, encText] using hc
  | cons i ids ih =>
    intro fs c hc
    show appendAllClusterIds mapDir ids (append_cluster_id mapDir i fs) _ = _
    have hstep : append_cluster_id mapDir i fs (_cluster_ids_path mapDir)
        = some (c ++ encText (pyStr i ++ ['\n'])) := by
      unfold append_cluster_id appendText writeFS
      rw [if_pos rfl, hc]
      rfl
    rw [ih _ _ hstep]
    unfold idLines encText
    simp [List.map_append]

theorem pySplitlines_idLines (ids : List Int) :
    pySplitlines (idLines ids) = ids.map pyStr := by
  induction ids with
  | nil => rfl
  | cons i ids ih =>
    have hstep : idLines (i :: ids) = pyStr i ++ '\n' :: idLines ids := by
      unfold idLines
      rw [List.flatMap_cons, List.append_assoc, List.singleton_append]
    rw [hstep, pySplitlines_line (pyStr_no_newline i), ih, List.map_cons]

theorem parseIdLines_map_pyStr (ids : List Int) :
    parseIdLines (ids.map pyStr) = .ok ids := by
  induction ids with
  | nil => rfl
  | cons i ids ih =>
    rw [List.map_cons, parseIdLines, pyStrip_of_no_space (pyStr_no_space i),
      pyInt_pyStr, ih]
    rfl

/-! ## Lemmas about save_inputs -/

theorem inputPath_injective (mapDir : MPath) {i j : Nat}
    (h : inputPath mapDir i = inputPath mapDir j) : i = j := by
  unfold inputPath at h
  have h2 := List.append_cancel_left h
  have h3 : natStr i ++ '.' :: names.INPUT_EXT = natStr j ++ '.' :: names.INPUT_EXT := by
    injection h2 with ha hb
    injection hb with hc
  have h4 : natStr i = natStr j := List.append_cancel_right h3
  have := parseNat_natStr i
  rw [h4, parseNat_natStr j] at this
  injection this with hv
  omega

theorem save_inputs_go_untouched (mapDir : MPath) :
    ∀ (aks : List PyObj) (start : Nat) (fs : FS) (p : MPath),
      (∀ j, j < aks.length → p ≠ inputPath mapDir (start + j)) →
      ((aks.enumFrom start).foldl
        (fun acc q => save_object q.2 (inputPath mapDir q.1) acc) fs) p = fs p := by
  intro aks
  induction aks with
  | nil => intro start fs p _; rfl
  | cons a aks ih =>
    intro start fs p hp
    rw [List.enumFrom_cons, List.foldl_cons]
    rw [ih (start + 1) _ p (fun j hj => by
      have := hp (j + 1) (by simpa using Nat.succ_lt_succ hj)
      simpa [Nat.add_assoc, Nat.add_comm 1 j] using this)]
    unfold save_object writeFS
    rw [if_neg (by simpa using hp 0 (Nat.succ_pos _))]

theorem save_inputs_go_hit (mapDir : MPath) :
    ∀ (aks : List PyObj) (start : Nat) (fs : FS) (j : Nat) (hj : j < aks.length),
      ((aks.enumFrom start).foldl
        (fun acc q => save_object q.2 (inputPath mapDir q.1) acc) fs)
        (inputPath mapDir (start + j))
        = some (pyDump (aks.get ⟨j, hj⟩)) := by
  intro aks
  induction aks with
  | nil => intro start fs j hj; exact absurd hj (by simp)
  | cons a aks ih =>
    intro start fs j hj
    rw [List.enumFrom_cons, List.foldl_cons]
    cases j with
    | zero =>
      rw [save_inputs_go_untouched mapDir aks (start + 1) _ _ (fun k hk hcontra => by
        have := inputPath_injective mapDir hcontra
        omega)]
      unfold save_object writeFS
      rw [Nat.add_zero, if_pos rfl]
      rfl
    | succ j =>
      have : start + (j + 1) = (start + 1) + j := by omega
      rw [this, ih (start + 1) _ j (Nat.lt_of_succ_lt_succ hj)]
      rfl

/-! ## Claim theorems -/

/-- C1: for every serializable value v (including a closure capturing
external state), calling save_object(v, path) and then load_object(path)
returns a value equal to v. -/
theorem C1_save_load_object_roundtrip (v : PyObj) (path : MPath) (fs : FS) :
    load_object path (save_object v path fs) = .ok v := by
  unfold load_object save_object writeFS
  rw [if_pos rfl]
  show Except.map Prod.fst (pyLoadOne (pyDump v)) = .ok v
  have h := pyLoadOne_dump v []
  rw [List.append_nil] at h
  rw [h]
  rfl

/-- C2 counterexample: a stream holding the single frame of the value 5 is
fully consumed, but the iteration then terminates with a raised EOFError —
the generator loop (while True: yield cloudpickle.load(file)) has no normal
StopIteration end at stream exhaustion. -/
theorem C2_stream_end_cex :
    load_objects [['p']] (save_object (PyObj.int 5) [['p']] emptyFS)
      = .ok ([PyObj.int 5], .raised .eofError) ∧
    IterEnd.raised PyErr.eofError ≠ IterEnd.stopped :=
  ⟨rfl, fun h => IterEnd.noConfusion h⟩

/-- C2 amended: iterating load_objects over a file holding the successive
frames of v1..vn yields exactly v1..vn in that order, and after the nth
value the iteration terminates with a raised EOFError when the underlying
stream is exhausted (not with a normal end of iteration). -/
theorem C2_stream_roundtrip (vs : List PyObj) (path : MPath) (fs : FS) :
    load_objects path (writeFS path (vs.flatMap pyDump) fs)
      = .ok (vs, .raised .eofError) := by
  unfold load_objects writeFS
  rw [if_pos rfl]
  show Except.ok (loadObjectsRun (vs.flatMap pyDump)) = _
  rw [loadObjectsRun_frames]

/-- C3 counterexample: on a map directory where no submission has ever
occurred (the cluster-ids file does not exist), load_cluster_ids neither
returns an empty sequence nor raises the store-level NotFoundError of the
specification; it propagates the low-level FileNotFoundError from
Path.read_text. -/
theorem C3_load_cluster_ids_absent_cex :
    ¬ (load_cluster_ids [['m']] emptyFS = .ok [] ∨
       load_cluster_ids [['m']] emptyFS = .error .notFoundError) := by
  intro h
  have heval : load_cluster_ids [['m']] emptyFS = .error .fileNotFoundError := rfl
  rcases h with h | h
  · rw [heval] at h
    exact Except.noConfusion h
  · rw [heval] at h
    injection h with h2
    exact PyErr.noConfusion h2

/-- C3 amended: load_cluster_ids on a map directory in which no submission
has ever occurred raises the low-level FileNotFoundError of the underlying
file read; the code neither normalizes absence to an empty list nor defines
a store-level NotFoundError. -/
theorem C3_load_cluster_ids_absent (mapDir : MPath) (fs : FS)
    (h : fs (_cluster_ids_path mapDir) = none) :
    load_cluster_ids mapDir fs = .error .fileNotFoundError := by
  unfold load_cluster_ids read_text
  rw [h]

/-- Witness for C3: the amended theorem applied to an empty filesystem. -/
theorem C3_witness :
    (emptyFS (_cluster_ids_path [['m']]) = none) ∧
    load_cluster_ids [['m']] emptyFS = .error .fileNotFoundError :=
  ⟨rfl, C3_load_cluster_ids_absent [['m']] emptyFS rfl⟩

/-- C4 counterexample: when the component-count file is missing,
load_num_components raises FileNotFoundError, not the CorruptStateError
the claim requires; when the file exists but is empty it raises ValueError,
again not CorruptStateError. -/
theorem C4_load_num_components_error_type_cex :
    load_num_components [['m']] emptyFS = .error .fileNotFoundError ∧
    load_num_components [['m']] emptyFS ≠ .error .corruptStateError ∧
    load_num_components [['m']]
        (write_text (_num_components_path [['m']]) [] emptyFS) = .error .valueError := by
  refine ⟨rfl, ?_, rfl⟩
  intro h
  injection h with h2
  exact PyErr.noConfusion h2

/-- C4 amended: load_num_components parses the stored text back to an
integer; when the file is missing it raises the low-level FileNotFoundError,
and when the stored text is empty or not a valid integer it raises the
built-in ValueError — the code defines no CorruptStateError. -/
theorem C4_load_num_components_errors (mapDir : MPath) (fs : FS) :
    (fs (_num_components_path mapDir) = none →
      load_num_components mapDir fs = .error .fileNotFoundError) ∧
    (∀ s, fs (_num_components_path mapDir) = some (encText s) →
      pyInt s = none → load_num_components mapDir fs = .error .valueError) ∧
    (∀ s i, fs (_num_components_path mapDir) = some (encText s) →
      pyInt s = some i → load_num_components mapDir fs = .ok i) := by
  refine ⟨?_, ?_, ?_⟩
  · intro h
    unfold load_num_components read_text
    rw [h]
  · intro s hs hparse
    unfold load_num_components read_text
    rw [hs]
    show (match pyInt (decText (encText s)) with
      | none => Except.error PyErr.valueError
      | some i => Except.ok i) = _
    rw [decText_encText, hparse]
  · intro s i hs hparse
    unfold load_num_components read_text
    rw [hs]
    show (match pyInt (decText (encText s)) with
      | none => Except.error PyErr.valueError
      | some i => Except.ok i) = _
    rw [decText_encText, hparse]

/-- Witness for C4: the amended theorem applied to a missing file, an empty
file, and a file holding the digits 42. -/
theorem C4_witness :
    load_num_components [['m']] emptyFS = .error .fileNotFoundError ∧
    load_num_components [['m']]
        (write_text (_num_components_path [['m']]) [] emptyFS) = .error .valueError ∧
    load_num_components [['m']]
        (write_text (_num_components_path [['m']]) ['4', '2'] emptyFS) = .ok 42 :=
  ⟨(C4_load_num_components_errors [['m']] emptyFS).1 rfl,
   (C4_load_num_components_errors [['m']]
      (write_text (_num_components_path [['m']]) [] emptyFS)).2.1 [] rfl rfl,
   (C4_load_num_components_errors [['m']]
      (write_text (_num_components_path [['m']]) ['4', '2'] emptyFS)).2.2
      ['4', '2'] 42 rfl (by decide)⟩

/-- C5 counterexample: during save_object's write the file at the target
path passes through a state (right after gzip.open(path, mode="wb")
truncates it in place) in which a concurrent reader sees an existing file
that is not a complete valid container: reading it fails. -/
theorem C5_save_object_not_atomic_cex :
    (1 : Nat) < (saveObjectStates (PyObj.int 0) [['m']] emptyFS).length ∧
    ((saveObjectStates (PyObj.int 0) [['m']] emptyFS).getD 1 emptyFS) [['m']]
      = some [] ∧
    load_object [['m']] ((saveObjectStates (PyObj.int 0) [['m']] emptyFS).getD 1 emptyFS)
      = .error .eofError :=
  ⟨by decide, rfl, rfl⟩

/-- C5 amended: save_object's write is not atomic from a reader's point of
view: the write goes to the target path itself (no temporary path and
rename), so among the reader-visible states of the write there is one where
the file exists but holds no complete valid container; the trace starts at
the prior filesystem and ends with the completed write. -/
theorem C5_save_object_write_in_place (obj : PyObj) (path : MPath) (fs : FS) :
    (saveObjectStates obj path fs).head? = some fs ∧
    save_object obj path fs ∈ saveObjectStates obj path fs ∧
    ∃ s ∈ saveObjectStates obj path fs, s path = some [] ∧
      load_object path s = .error .eofError := by
  refine ⟨rfl, ?_, ?_⟩
  · unfold saveObjectStates save_object
    apply List.mem_cons_of_mem
    apply List.mem_map.mpr
    refine ⟨(pyDump obj).length, List.mem_range.mpr (Nat.lt_succ_self _), ?_⟩
    rw [List.take_length]
  · refine ⟨writeFS path [] fs, ?_, ?_, ?_⟩
    · unfold saveObjectStates
      apply List.mem_cons_of_mem
      apply List.mem_map.mpr
      exact ⟨0, List.mem_range.mpr (Nat.succ_pos _), by rw [List.take_zero]⟩
    · unfold writeFS
      rw [if_pos rfl]
    · unfold load_object writeFS
      rw [if_pos rfl]
      rfl

/-- C6 counterexample: for the empty sequence of appends on a fresh map
directory the claim fails — the log file was never created, so
load_cluster_ids raises FileNotFoundError instead of returning the empty
sequence. -/
theorem C6_empty_sequence_cex :
    load_cluster_ids [['m']] (appendAllClusterIds [['m']] [] emptyFS) ≠ .ok [] := by
  intro h
  have heval : load_cluster_ids [['m']] (appendAllClusterIds [['m']] [] emptyFS)
      = .error .fileNotFoundError := rfl
  rw [heval] at h
  exact Except.noConfusion h

/-- C6 amended: for every nonempty finite sequence of integers appended one
at a time with append_cluster_id to a map directory whose log file does not
exist yet, load_cluster_ids returns exactly that sequence in the same order;
moreover each single append appends one newline-terminated line to the log
file and leaves every other file unchanged, never overwriting or removing
previously appended entries.  (For the empty sequence the log file is never
created and load_cluster_ids raises FileNotFoundError.) -/
theorem C6_append_log_roundtrip (mapDir : MPath) (ids : List Int) (fs : FS)
    (hne : ids ≠ []) (h0 : fs (_cluster_ids_path mapDir) = none) :
    load_cluster_ids mapDir (appendAllClusterIds mapDir ids fs) = .ok ids ∧
    (∀ (i : Int) (g : FS),
      append_cluster_id mapDir i g (_cluster_ids_path mapDir)
        = some (((g (_cluster_ids_path mapDir)).getD [])
            ++ encText (pyStr i ++ ['\n'])) ∧
      ∀ p, p ≠ _cluster_ids_path mapDir → append_cluster_id mapDir i g p = g p) := by
  constructor
  · match ids, hne with
    | i :: ids, _ =>
      have hstep : append_cluster_id mapDir i fs (_cluster_ids_path mapDir)
          = some (encText (pyStr i ++ ['\n'])) := by
        unfold append_cluster_id appendText writeFS
        rw [if_pos rfl, h0]
        rfl
      have hcontent :
          appendAllClusterIds mapDir (i :: ids) fs (_cluster_ids_path mapDir)
            = some (encText (idLines (i :: ids))) := by
        show appendAllClusterIds mapDir ids (append_cluster_id mapDir i fs) _ = _
        rw [appendAll_content mapDir ids _ _ hstep]
        congr 1
        unfold encText
        rw [← List.map_append]
        congr 1
      unfold load_cluster_ids read_text
      rw [hcontent]
      show parseIdLines (pySplitlines (decText (encText (idLines (i :: ids))))) = _
      rw [decText_encText, pySplitlines_idLines, parseIdLines_map_pyStr]
  · intro i g
    constructor
    · unfold append_cluster_id appendText writeFS
      rw [if_pos rfl]
    · intro p hp
      unfold append_cluster_id appendText writeFS
      rw [if_neg hp]

/-- Witness for C6: the amended theorem applied to the sequence 5, 17, 9 on
an empty filesystem; the log then reads back as exactly that sequence. -/
theorem C6_witness :
    ([5, 17, 9] ≠ ([] : List Int)) ∧
    (load_cluster_ids [['m']] (appendAllClusterIds [['m']] [5, 17, 9] emptyFS)
        = .ok [5, 17, 9] ∧
     (∀ (i : Int) (g : FS),
        append_cluster_id [['m']] i g (_cluster_ids_path [['m']])
          = some (((g (_cluster_ids_path [['m']])).getD [])
              ++ encText (pyStr i ++ ['\n'])) ∧
        ∀ p, p ≠ _cluster_ids_path [['m']] → append_cluster_id [['m']] i g p = g p)) :=
  ⟨by decide, C6_append_log_roundtrip [['m']] [5, 17, 9] emptyFS (by decide) rfl⟩

/-- C7: for every non-negative integer k, save_num_components(dir, k)
followed by load_num_components(dir) returns exactly k. -/
theorem C7_num_components_roundtrip (k : Int) (_hk : 0 ≤ k) (mapDir : MPath) (fs : FS) :
    load_num_components mapDir (save_num_components mapDir k fs) = .ok k := by
  unfold load_num_components save_num_components write_text read_text writeFS
  rw [if_pos rfl]
  show (match pyInt (decText (encText (pyStr k))) with
    | none => Except.error PyErr.valueError
    | some i => Except.ok i) = _
  rw [decText_encText, pyInt_pyStr]

/-- Witness for C7: the round trip at k = 3 on an empty filesystem. -/
theorem C7_witness :
    (0 : Int) ≤ 3 ∧
    load_num_components [['m']] (save_num_components [['m']] 3 emptyFS) = .ok 3 :=
  ⟨by decide, C7_num_components_roundtrip 3 (by decide) [['m']] emptyFS⟩

/-- C10: calling save_num_components a second time on the same map directory
silently overwrites the stored value, with no error and no consistency check
against whatever else (input component files included) the filesystem holds;
a subsequent load_num_components returns the most recently saved value. -/
theorem C10_save_num_components_last_write_wins
    (mapDir : MPath) (k1 k2 : Int) (fs : FS) :
    load_num_components mapDir
      (save_num_components mapDir k2 (save_num_components mapDir k1 fs)) = .ok k2 := by
  unfold load_num_components save_num_components write_text read_text writeFS
  rw [if_pos rfl]
  show (match pyInt (decText (encText (pyStr k2))) with
    | none => Except.error PyErr.valueError
    | some i => Except.ok i) = _
  rw [decText_encText, pyInt_pyStr]

/-- C8: save_inputs writes exactly one input component file per argument
pair, in iteration order, at inputs-directory/"<index>.<extension>" with
zero-based indices 0..n-1, and writes nothing else. -/
theorem C8_save_inputs_layout (mapDir : MPath) (aks : List PyObj) (fs : FS) :
    (∀ (i : Nat) (hi : i < aks.length),
      save_inputs mapDir aks fs (inputPath mapDir i)
        = some (pyDump (aks.get ⟨i, hi⟩))) ∧
    (∀ p, (∀ i, i < aks.length → p ≠ inputPath mapDir i) →
      save_inputs mapDir aks fs p = fs p) := by
  constructor
  · intro i hi
    unfold save_inputs
    rw [show List.enum aks = List.enumFrom 0 aks from rfl]
    have := save_inputs_go_hit mapDir aks 0 fs i hi
    rw [Nat.zero_add] at this
    exact this
  · intro p hp
    unfold save_inputs
    rw [show List.enum aks = List.enumFrom 0 aks from rfl]
    apply save_inputs_go_untouched
    intro j hj
    have := hp j hj
    rw [Nat.zero_add]
    exact this

/-- Witness for C8: two argument pairs on an empty filesystem; component 0
holds the first pair's frame, and an unrelated path is untouched. -/
theorem C8_witness :
    save_inputs [['m']] [PyObj.int 1, PyObj.int 2] emptyFS (inputPath [['m']] 0)
      = some (pyDump (PyObj.int 1)) ∧
    save_inputs [['m']] [PyObj.int 1, PyObj.int 2] emptyFS [['z']] = emptyFS [['z']] :=
  ⟨(C8_save_inputs_layout [['m']] [PyObj.int 1, PyObj.int 2] emptyFS).1 0 (by decide),
   (C8_save_inputs_layout [['m']] [PyObj.int 1, PyObj.int 2] emptyFS).2 [['z']]
     (fun i hi => by
       have h2 : i < 2 := by simpa using hi
       interval_cases i <;> decide)⟩

/-! ## Structured document store: the itemdata document

Model of json.dump(itemdata, f, indent=None, separators=(",", ":")) and
json.load for the documents the store writes: a JSON array of string-keyed,
string-valued objects (htmap's per-component item descriptors).  Itemdata is
a list of ordered string-keyed mappings; strings are lists of characters. -/

/-- One item descriptor: an ordered string-keyed, string-valued mapping. -/
abbrev ItemMap := List (List Char × List Char)

/-- Opening brace character of a JSON object. -/
def obChar : Char := '\x7b'

/-- Closing brace character of a JSON object. -/
def cbChar : Char := '\x7d'

/-- Model of json string escaping for one character inside a string literal:
quote and backslash receive a backslash escape; every other character is
written as itself.  (json.dump additionally writes numeric escapes for
control and non-ASCII characters; on printable ASCII — the store's item
descriptors — the two coincide.) -/
def escChar (c : Char) : List Char :=
  if c = '"' ∨ c = '\\' then ['\\', c] else [c]

/-- A JSON string literal. -/
def serStr (s : List Char) : List Char := '"' :: (s.flatMap escChar ++ ['"'])

/-- One object member, with the ":" item separator of the compact format. -/
def serPair (kv : List Char × List Char) : List Char :=
  serStr kv.1 ++ ':' :: serStr kv.2

/-- The "," element separator of the compact format, with no whitespace. -/
def joinComma : List (List Char) → List Char
  | [] => []
  | [x] => x
  | x :: y :: xs => x ++ ',' :: joinComma (y :: xs)

/-- A JSON object in the compact format. -/
def serMap (m : ItemMap) : List Char :=
  obChar :: (joinComma (m.map serPair) ++ [cbChar])

/-- The itemdata document: a JSON array of objects in the compact format
json.dump produces with indent=None and separators=(",", ":"). -/
def serItemdata (d : List ItemMap) : List Char :=
  '[' :: (joinComma (d.map serMap) ++ [']'])

/-- Parse the remainder of a JSON string literal, after the opening quote. -/
def parseStrBody : List Char → Option (List Char × List Char)
  | [] => none
  | c :: rest =>
    if c = '"' then some ([], rest)
    else if c = '\\' then
      match rest with
      | [] => none
      | c2 :: rest2 =>
        if c2 = '"' ∨ c2 = '\\' then
          (parseStrBody rest2).map (fun p => (c2 :: p.1, p.2))
        else none
    else (parseStrBody rest).map (fun p => (c :: p.1, p.2))

/-- Parse a JSON string literal. -/
def parseStr : List Char → Option (List Char × List Char)
  | '"' :: rest => parseStrBody rest
  | _ => none

/-- Parse one object member: a key string, ":", and a value string. -/
def parsePair (s : List Char) : Option ((List Char × List Char) × List Char) :=
  match parseStr s with
  | none => none
  | some (k, r1) =>
    match r1 with
    | ':' :: r2 =>
      match parseStr r2 with
      | none => none
      | some (v, r3) => some ((k, v), r3)
    | _ => none

/-- Parse the members of a nonempty object, up to and including the closing
brace.  The fuel bounds the number of members and only forces termination of
the model; the call sites pass enough (see the parse lemmas). -/
def parseMapBody (fuel : Nat) (s : List Char) : Option (ItemMap × List Char) :=
  match fuel with
  | 0 => none
  | f + 1 =>
    match parsePair s with
    | none => none
    | some (kv, r) =>
      match r with
      | c :: r2 =>
        if c = ',' then (parseMapBody f r2).map (fun p => (kv :: p.1, p.2))
        else if c = cbChar then some ([kv], r2)
        else none
      | [] => none

/-- Parse a JSON object. -/
def parseMap (fuel : Nat) (s : List Char) : Option (ItemMap × List Char) :=
  match s with
  | c :: rest =>
    if c = obChar then
      match rest with
      | c2 :: _r2 =>
        if c2 = cbChar then some ([], _r2) else parseMapBody fuel rest
      | [] => none
    else none
  | [] => none

/-- Parse the elements of a nonempty array of objects, up to and including
the closing bracket. -/
def parseArrBody (fuel : Nat) (s : List Char) :
    Option (List ItemMap × List Char) :=
  match fuel with
  | 0 => none
  | f + 1 =>
    match parseMap (f + 1) s with
    | none => none
    | some (m, r) =>
      match r with
      | c :: r2 =>
        if c = ',' then (parseArrBody f r2).map (fun p => (m :: p.1, p.2))
        else if c = ']' then some ([m], r2)
        else none
      | [] => none

/-- Model of json.load on an itemdata document: a JSON array of string-keyed
string-valued objects, with the whole input consumed.  The fuel passed down
is the input length plus one, which the parse lemmas show is never exhausted
on a document the store writes. -/
def parseItemdata (s : List Char) : Option (List ItemMap) :=
  match s with
  | c :: rest =>
    if c = '[' then
      match rest with
      | c2 :: r2 =>
        if c2 = ']' then (if r2 = [] then some [] else none)
        else
          match parseArrBody (rest.length + 1) rest with
          | some (d, r3) => if r3 = [] then some d else none
          | none => none
      | [] => none
    else none
  | [] => none

/-- Embedding of _itemdata_path. -/
def _itemdata_path (mapDir : MPath) : MPath := mapDir ++ [names.ITEMDATA]

/-- Embedding of save_itemdata: json.dump(itemdata, f, indent=None,
separators=(",", ":")) — the most compact representation. -/
def save_itemdata (mapDir : MPath) (itemdata : List ItemMap) (fs : FS) : FS :=
  write_text (_itemdata_path mapDir) (serItemdata itemdata) fs

/-- Embedding of load_itemdata: json.load on the itemdata file (a
json.JSONDecodeError is a ValueError subclass). -/
def load_itemdata (mapDir : MPath) (fs : FS) : Except PyErr (List ItemMap) :=
  match read_text (_itemdata_path mapDir) fs with
  | .error e => .error e
  | .ok s =>
    match parseItemdata s with
    | none => .error .valueError
    | some d => .ok d

/-! ## Parse lemmas for the itemdata codec -/

theorem parseStrBody_cons (c : Char) (t : List Char) :
    parseStrBody (c :: t)
      = if c = '"' then some ([], t)
        else if c = '\\' then
          (match t with
           | [] => none
           | c2 :: rest2 =>
             if c2 = '"' ∨ c2 = '\\' then
               (parseStrBody rest2).map (fun p => (c2 :: p.1, p.2))
             else none)
        else (parseStrBody t).map (fun p => (c :: p.1, p.2)) := by
  rw [parseStrBody.eq_def]

theorem parseStrBody_ser (s : List Char) :
    ∀ rest, parseStrBody (s.flatMap escChar ++ '"' :: rest) = some (s, rest) := by
  induction s with
  | nil =>
    intro rest
    rw [List.flatMap_nil, List.nil_append, parseStrBody_cons, if_pos rfl]
  | cons c cs ih =>
    intro rest
    rw [List.flatMap_cons]
    by_cases hc : c = '"' ∨ c = '\\'
    · rw [escChar, if_pos hc]
      show parseStrBody ('\\' :: c :: (cs.flatMap escChar ++ '"' :: rest)) = _
      rw [parseStrBody_cons, if_neg (by decide), if_pos rfl]
      show (if c = '"' ∨ c = '\\' then
          (parseStrBody (cs.flatMap escChar ++ '"' :: rest)).map (fun p => (c :: p.1, p.2))
        else none) = _
      rw [if_pos hc, ih rest]
      rfl
    · push_neg at hc
      rw [escChar, if_neg (by tauto)]
      show parseStrBody (c :: (cs.flatMap escChar ++ '"' :: rest)) = _
      rw [parseStrBody_cons, if_neg hc.1, if_neg hc.2, ih rest]
      rfl

theorem parseStr_quote (t : List Char) : parseStr ('"' :: t) = parseStrBody t := rfl

theorem parseStr_ser (s : List Char) (rest : List Char) :
    parseStr (serStr s ++ rest) = some (s, rest) := by
  show parseStr ('"' :: ((s.flatMap escChar ++ ['"']) ++ rest)) = _
  rw [parseStr_quote, List.append_assoc, List.singleton_append]
  exact parseStrBody_ser s rest

theorem parsePair_ser (kv : List Char × List Char) (rest : List Char) :
    parsePair (serPair kv ++ rest) = some (kv, rest) := by
  unfold parsePair serPair
  rw [List.append_assoc, List.cons_append, parseStr_ser]
  show (match parseStr (serStr kv.2 ++ rest) with
    | none => none
    | some (v, r3) => some ((kv.1, v), r3)) = _
  rw [parseStr_ser]

/-- Member list and closing brace of a JSON object, as parseMapBody consumes it. -/
def serMapBody (m : ItemMap) : List Char := joinComma (m.map serPair) ++ [cbChar]

/-- Element list and closing bracket of the array, as parseArrBody consumes it. -/
def serArrBody (d : List ItemMap) : List Char := joinComma (d.map serMap) ++ [']']

theorem joinComma_one (x : List Char) : joinComma [x] = x := rfl

theorem joinComma_two (x y : List Char) (xs : List (List Char)) :
    joinComma (x :: y :: xs) = x ++ ',' :: joinComma (y :: xs) := rfl

theorem joinComma_cons_ex (x : List Char) (xs : List (List Char)) :
    ∃ t, joinComma (x :: xs) = x ++ t := by
  cases xs with
  | nil => exact ⟨[], by rw [joinComma_one, List.append_nil]⟩
  | cons y ys => exact ⟨',' :: joinComma (y :: ys), rfl⟩

theorem serPair_head (kv : List Char × List Char) :
    serPair kv = '"' :: ((kv.1.flatMap escChar ++ ['"']) ++ ':' :: serStr kv.2) := rfl

theorem serMap_eq_cons (m : ItemMap) : serMap m = obChar :: serMapBody m := rfl

theorem serItemdata_eq_cons (d : List ItemMap) : serItemdata d = '[' :: serArrBody d := rfl

theorem serMapBody_one (kv : List Char × List Char) (rest : List Char) :
    serMapBody [kv] ++ rest = serPair kv ++ (cbChar :: rest) := by
  unfold serMapBody
  rw [List.map_cons, List.map_nil, joinComma_one]
  simp [List.append_assoc]

theorem serMapBody_two (kv kv2 : List Char × List Char) (m' : ItemMap) (rest : List Char) :
    serMapBody (kv :: kv2 :: m') ++ rest
      = serPair kv ++ (',' :: (serMapBody (kv2 :: m') ++ rest)) := by
  unfold serMapBody
  rw [List.map_cons, List.map_cons, joinComma_two]
  simp [List.append_assoc]

theorem serArrBody_one (m : ItemMap) (rest : List Char) :
    serArrBody [m] ++ rest = serMap m ++ (']' :: rest) := by
  unfold serArrBody
  rw [List.map_cons, List.map_nil, joinComma_one]
  simp [List.append_assoc]

theorem serArrBody_two (m m2 : ItemMap) (d'' : List ItemMap) (rest : List Char) :
    serArrBody (m :: m2 :: d'') ++ rest
      = serMap m ++ (',' :: (serArrBody (m2 :: d'') ++ rest)) := by
  unfold serArrBody
  rw [List.map_cons, List.map_cons, joinComma_two]
  simp [List.append_assoc]

theorem serMapBody_head (kv : List Char × List Char) (m' : ItemMap) (rest : List Char) :
    ∃ t, serMapBody (kv :: m') ++ rest = '"' :: t := by
  obtain ⟨t0, ht0⟩ := joinComma_cons_ex (serPair kv) (m'.map serPair)
  refine ⟨((kv.1.flatMap escChar ++ ['"']) ++ ':' :: serStr kv.2) ++ (t0 ++ ([cbChar] ++ rest)), ?_⟩
  unfold serMapBody
  rw [List.map_cons, ht0, serPair_head]
  simp [List.append_assoc]

theorem serArrBody_head (m : ItemMap) (d' : List ItemMap) (rest : List Char) :
    ∃ t, serArrBody (m :: d') ++ rest = obChar :: t := by
  obtain ⟨t0, ht0⟩ := joinComma_cons_ex (serMap m) (d'.map serMap)
  refine ⟨serMapBody m ++ (t0 ++ ([']'] ++ rest)), ?_⟩
  unfold serArrBody
  rw [List.map_cons, ht0, serMap_eq_cons]
  simp [List.append_assoc]

theorem parseMapBody_succ (f : Nat) (s : List Char) :
    parseMapBody (f + 1) s
      = match parsePair s with
        | none => none
        | some (kv, r) =>
          match r with
          | c :: r2 =>
            if c = ',' then (parseMapBody f r2).map (fun p => (kv :: p.1, p.2))
            else if c = cbChar then some ([kv], r2)
            else none
          | [] => none := by
  rw [parseMapBody.eq_def]

theorem parseArrBody_succ (f : Nat) (s : List Char) :
    parseArrBody (f + 1) s
      = match parseMap (f + 1) s with
        | none => none
        | some (m, r) =>
          match r with
          | c :: r2 =>
            if c = ',' then (parseArrBody f r2).map (fun p => (m :: p.1, p.2))
            else if c = ']' then some ([m], r2)
            else none
          | [] => none := by
  rw [parseArrBody.eq_def]

theorem parseMap_cons (fuel : Nat) (c : Char) (rest : List Char) :
    parseMap fuel (c :: rest)
      = if c = obChar then
          (match rest with
           | c2 :: r2 => if c2 = cbChar then some ([], r2) else parseMapBody fuel (c2 :: r2)
           | [] => none)
        else none := by
  rw [parseMap.eq_def]
  cases rest with
  | nil => rfl
  | cons c2 r2 => rfl

theorem parseMapBody_ser :
    ∀ (m : ItemMap) (fuel : Nat) (rest : List Char), m ≠ [] → m.length ≤ fuel →
      parseMapBody fuel (serMapBody m ++ rest) = some (m, rest) := by
  intro m
  induction m with
  | nil => intro fuel rest h _; exact absurd rfl h
  | cons kv m' ih =>
    intro fuel rest _ hlen
    obtain ⟨f, rfl⟩ : ∃ f, fuel = f + 1 := ⟨fuel - 1, by
      have : 0 < fuel := by
        have := hlen
        simp [List.length_cons] at this
        omega
      omega⟩
    cases m' with
    | nil =>
      rw [serMapBody_one, parseMapBody_succ, parsePair_ser]
      show (if cbChar = ',' then (parseMapBody f rest).map (fun p => (kv :: p.1, p.2))
        else if cbChar = cbChar then some ([kv], rest) else none) = some ([kv], rest)
      rw [if_neg (by decide), if_pos rfl]
    | cons kv2 m'' =>
      rw [serMapBody_two, parseMapBody_succ, parsePair_ser]
      show (if (',' : Char) = ',' then
          (parseMapBody f (serMapBody (kv2 :: m'') ++ rest)).map (fun p => (kv :: p.1, p.2))
        else if (',' : Char) = cbChar then some ([kv], serMapBody (kv2 :: m'') ++ rest)
        else none) = some (kv :: kv2 :: m'', rest)
      rw [if_pos rfl, ih f rest (by simp) (by
        have := hlen
        simp [List.length_cons] at this ⊢
        omega)]
      rfl

theorem parseMap_ser (m : ItemMap) (fuel : Nat) (rest : List Char)
    (hlen : m.length ≤ fuel) :
    parseMap fuel (serMap m ++ rest) = some (m, rest) := by
  cases m with
  | nil =>
    show parseMap fuel (obChar :: (cbChar :: rest)) = some ([], rest)
    rw [parseMap_cons, if_pos rfl]
    show (if cbChar = cbChar then some ([], rest) else parseMapBody fuel (cbChar :: rest))
      = some ([], rest)
    rw [if_pos rfl]
  | cons kv m' =>
    obtain ⟨t, ht⟩ := serMapBody_head kv m' rest
    have hshape : serMap (kv :: m') ++ rest = obChar :: (serMapBody (kv :: m') ++ rest) := by
      rw [serMap_eq_cons, List.cons_append]
    rw [hshape, parseMap_cons, if_pos rfl, ht]
    show (if ('"' : Char) = cbChar then some ([], t) else parseMapBody fuel ('"' :: t))
      = some (kv :: m', rest)
    rw [if_neg (by decide), ← ht]
    exact parseMapBody_ser (kv :: m') fuel rest (by simp) hlen

theorem parseArrBody_ser :
    ∀ (d : List ItemMap) (fuel : Nat) (rest : List Char), d ≠ [] →
      (∀ m ∈ d, m.length + d.length ≤ fuel) →
      parseArrBody fuel (serArrBody d ++ rest) = some (d, rest) := by
  intro d
  induction d with
  | nil => intro fuel rest h _; exact absurd rfl h
  | cons m d' ih =>
    intro fuel rest _ hfuel
    obtain ⟨f, rfl⟩ : ∃ f, fuel = f + 1 := ⟨fuel - 1, by
      have := hfuel m (List.mem_cons_self _ _)
      simp [List.length_cons] at this
      omega⟩
    have hm : m.length ≤ f + 1 := by
      have := hfuel m (List.mem_cons_self _ _)
      simp [List.length_cons] at this
      omega
    cases d' with
    | nil =>
      rw [serArrBody_one, parseArrBody_succ, parseMap_ser m (f + 1) _ hm]
      show (if (']' : Char) = ',' then (parseArrBody f rest).map (fun p => (m :: p.1, p.2))
        else if (']' : Char) = ']' then some ([m], rest) else none) = some ([m], rest)
      rw [if_neg (by decide), if_pos rfl]
    | cons m2 d'' =>
      rw [serArrBody_two, parseArrBody_succ, parseMap_ser m (f + 1) _ hm]
      show (if (',' : Char) = ',' then
          (parseArrBody f (serArrBody (m2 :: d'') ++ rest)).map (fun p => (m :: p.1, p.2))
        else if (',' : Char) = ']' then some ([m], serArrBody (m2 :: d'') ++ rest)
        else none) = some (m :: m2 :: d'', rest)
      rw [if_pos rfl, ih f rest (by simp) (by
        intro mm hmm
        have := hfuel mm (List.mem_cons_of_mem _ hmm)
        simp [List.length_cons] at this ⊢
        omega)]
      rfl

theorem serPair_ne_nil (kv : List Char × List Char) : serPair kv ≠ [] := by
  rw [serPair_head]; simp

theorem serMap_ne_nil (m : ItemMap) : serMap m ≠ [] := by
  rw [serMap_eq_cons]; simp

theorem joinComma_length_ge :
    ∀ (xs : List (List Char)), (∀ x ∈ xs, x ≠ []) → xs.length ≤ (joinComma xs).length := by
  intro xs
  induction xs with
  | nil => intro _; simp [joinComma]
  | cons x ys ih =>
    intro h
    cases ys with
    | nil =>
      rw [joinComma_one]
      have hx := h x (List.mem_cons_self _ _)
      have hx0 : x.length ≠ 0 := by simpa [List.length_eq_zero] using hx
      simp only [List.length_cons, List.length_nil]
      omega
    | cons y ys' =>
      rw [joinComma_two]
      have hrec := ih (fun z hz => h z (List.mem_cons_of_mem _ hz))
      simp only [List.length_cons, List.length_append] at hrec ⊢
      omega

theorem joinComma_length_mem :
    ∀ (xs : List (List Char)), (∀ x ∈ xs, x ≠ []) →
      ∀ x ∈ xs, x.length + xs.length ≤ (joinComma xs).length + 1 := by
  intro xs
  induction xs with
  | nil => intro _ x hx; cases hx
  | cons z ys ih =>
    intro h x hx
    cases ys with
    | nil =>
      rw [joinComma_one]
      rcases List.mem_cons.mp hx with rfl | hx'
      · simp
      · cases hx'
    | cons y ys' =>
      rw [joinComma_two]
      rcases List.mem_cons.mp hx with rfl | hx'
      · have hge := joinComma_length_ge (y :: ys')
          (fun w hw => h w (List.mem_cons_of_mem _ hw))
        simp only [List.length_cons, List.length_append] at hge ⊢
        omega
      · have hrec := ih (fun w hw => h w (List.mem_cons_of_mem _ hw)) x hx'
        have hz := h z (List.mem_cons_self _ _)
        have hz0 : z.length ≠ 0 := by simpa [List.length_eq_zero] using hz
        simp only [List.length_cons, List.length_append] at hrec ⊢
        omega

theorem serMap_length_ge (m : ItemMap) : m.length + 2 ≤ (serMap m).length := by
  rw [serMap_eq_cons]
  unfold serMapBody
  have hge := joinComma_length_ge (m.map serPair) (by
    intro x hx
    rcases List.mem_map.mp hx with ⟨kv, _, rfl⟩
    exact serPair_ne_nil kv)
  simp only [List.length_cons, List.length_append, List.length_map,
    List.length_nil] at hge ⊢
  omega

theorem serArrBody_fuel (m : ItemMap) (d' : List ItemMap) :
    ∀ mm ∈ (m :: d'), mm.length + (m :: d').length ≤ (serArrBody (m :: d')).length + 1 := by
  intro mm hmm
  have h1 := joinComma_length_mem ((m :: d').map serMap)
    (by intro x hx; rcases List.mem_map.mp hx with ⟨w, _, rfl⟩; exact serMap_ne_nil w)
    (serMap mm) (List.mem_map_of_mem _ hmm)
  have h2 := serMap_length_ge mm
  unfold serArrBody
  simp only [List.length_append, List.length_map, List.length_cons,
    List.length_nil] at h1 ⊢
  omega

theorem parseItemdata_cons (c : Char) (rest : List Char) :
    parseItemdata (c :: rest)
      = if c = '[' then
          (match rest with
           | c2 :: r2 =>
             if c2 = ']' then (if r2 = [] then some [] else none)
             else
               (match parseArrBody ((c2 :: r2).length + 1) (c2 :: r2) with
                | some (d, r3) => if r3 = [] then some d else none
                | none => none)
           | [] => none)
        else none := by
  rw [parseItemdata.eq_def]
  cases rest with
  | nil => rfl
  | cons c2 r2 => rfl

theorem parseItemdata_ser (d : List ItemMap) :
    parseItemdata (serItemdata d) = some d := by
  cases d with
  | nil => rfl
  | cons m d' =>
    obtain ⟨t, ht⟩ := serArrBody_head m d' []
    rw [List.append_nil] at ht
    rw [serItemdata_eq_cons, parseItemdata_cons, if_pos rfl, ht]
    show (if obChar = ']' then (if t = [] then some [] else none)
      else (match parseArrBody ((obChar :: t).length + 1) (obChar :: t) with
        | some (d2, r3) => if r3 = [] then some d2 else none
        | none => none)) = some (m :: d')
    rw [if_neg (by decide), ← ht]
    have hrun := parseArrBody_ser (m :: d') ((serArrBody (m :: d')).length + 1) []
      (by simp)
      (by intro mm hmm; have := serArrBody_fuel m d' mm hmm; omega)
    rw [List.append_nil] at hrun
    rw [hrun]
    show (if ([] : List Char) = [] then some (m :: d') else none) = some (m :: d')
    rw [if_pos rfl]

theorem joinComma_mem :
    ∀ (xs : List (List Char)) (c : Char), c ∈ joinComma xs → c = ',' ∨ ∃ x ∈ xs, c ∈ x := by
  intro xs
  induction xs with
  | nil => intro c hc; cases hc
  | cons x ys ih =>
    intro c hc
    cases ys with
    | nil =>
      rw [joinComma_one] at hc
      exact Or.inr ⟨x, List.mem_cons_self _ _, hc⟩
    | cons y ys' =>
      rw [joinComma_two] at hc
      rcases List.mem_append.mp hc with h | h
      · exact Or.inr ⟨x, List.mem_cons_self _ _, h⟩
      · rcases List.mem_cons.mp h with rfl | h2
        · exact Or.inl rfl
        · rcases ih c h2 with h3 | ⟨z, hz, hcz⟩
          · exact Or.inl h3
          · exact Or.inr ⟨z, List.mem_cons_of_mem _ hz, hcz⟩

theorem serStr_no_space {s : List Char} (h : ∀ c ∈ s, isSpaceChar c = false) :
    ∀ c ∈ serStr s, isSpaceChar c = false := by
  intro c hc
  unfold serStr at hc
  rcases List.mem_cons.mp hc with rfl | hc2
  · decide
  rcases List.mem_append.mp hc2 with hc3 | hc3
  · rcases List.mem_flatMap.mp hc3 with ⟨a, ha, hca⟩
    unfold escChar at hca
    by_cases hesc : a = '"' ∨ a = '\\'
    · rw [if_pos hesc] at hca
      rcases List.mem_cons.mp hca with rfl | hca2
      · decide
      · rcases List.mem_cons.mp hca2 with rfl | hca3
        · exact h _ ha
        · cases hca3
    · rw [if_neg hesc] at hca
      rcases List.mem_cons.mp hca with rfl | hca2
      · exact h _ ha
      · cases hca2
  · rcases List.mem_cons.mp hc3 with rfl | h4
    · decide
    · cases h4

theorem serPair_no_space {kv : List Char × List Char}
    (h1 : ∀ c ∈ kv.1, isSpaceChar c = false)
    (h2 : ∀ c ∈ kv.2, isSpaceChar c = false) :
    ∀ c ∈ serPair kv, isSpaceChar c = false := by
  intro c hc
  unfold serPair at hc
  rcases List.mem_append.mp hc with h | h
  · exact serStr_no_space h1 c h
  · rcases List.mem_cons.mp h with rfl | h'
    · decide
    · exact serStr_no_space h2 c h'

theorem serMap_no_space {m : ItemMap}
    (h : ∀ kv ∈ m, (∀ c ∈ kv.1, isSpaceChar c = false) ∧
      (∀ c ∈ kv.2, isSpaceChar c = false)) :
    ∀ c ∈ serMap m, isSpaceChar c = false := by
  intro c hc
  rw [serMap_eq_cons] at hc
  rcases List.mem_cons.mp hc with rfl | hc2
  · decide
  unfold serMapBody at hc2
  rcases List.mem_append.mp hc2 with h3 | h3
  · rcases joinComma_mem _ c h3 with rfl | ⟨x, hx, hcx⟩
    · decide
    · rcases List.mem_map.mp hx with ⟨kv, hkv, rfl⟩
      exact serPair_no_space (h kv hkv).1 (h kv hkv).2 c hcx
  · rcases List.mem_cons.mp h3 with rfl | h4
    · decide
    · cases h4

theorem serItemdata_no_space {d : List ItemMap}
    (h : ∀ m ∈ d, ∀ kv ∈ m, (∀ c ∈ kv.1, isSpaceChar c = false) ∧
      (∀ c ∈ kv.2, isSpaceChar c = false)) :
    ∀ c ∈ serItemdata d, isSpaceChar c = false := by
  intro c hc
  rw [serItemdata_eq_cons] at hc
  rcases List.mem_cons.mp hc with rfl | hc2
  · decide
  unfold serArrBody at hc2
  rcases List.mem_append.mp hc2 with h3 | h3
  · rcases joinComma_mem _ c h3 with rfl | ⟨x, hx, hcx⟩
    · decide
    · rcases List.mem_map.mp hx with ⟨m, hm, rfl⟩
      exact serMap_no_space (h m hm) c hcx
  · rcases List.mem_cons.mp h3 with rfl | h4
    · decide
    · cases h4

/-- C9: for every list of string-keyed mappings (including empty mappings and
the empty list), save_itemdata followed by load_itemdata reconstructs the
original ordered list exactly; and the stored encoding is the compact one —
written with indent None and separators "," and ":" — so whenever the stored
strings themselves contain no whitespace, the stored document contains no
whitespace character at all (no extraneous whitespace). -/
theorem C9_itemdata_roundtrip (mapDir : MPath) (d : List ItemMap) (fs : FS) :
    load_itemdata mapDir (save_itemdata mapDir d fs) = .ok d ∧
    ((∀ m ∈ d, ∀ kv ∈ m, (∀ c ∈ kv.1, isSpaceChar c = false) ∧
        (∀ c ∈ kv.2, isSpaceChar c = false)) →
      ∀ c ∈ serItemdata d, isSpaceChar c = false) := by
  constructor
  · unfold load_itemdata save_itemdata write_text read_text writeFS
    rw [if_pos rfl]
    show (match parseItemdata (decText (encText (serItemdata d))) with
      | none => Except.error PyErr.valueError
      | some d2 => Except.ok d2) = _
    rw [decText_encText, parseItemdata_ser]
  · exact fun h => serItemdata_no_space h

/-- Witness for C9: a two-descriptor itemdata (one singleton mapping and one
empty mapping) round-trips exactly, and its stored document contains no
whitespace. -/
theorem C9_witness :
    load_itemdata [['m']] (save_itemdata [['m']]
        [[(['k'], ['v'])], []] emptyFS) = .ok [[(['k'], ['v'])], []] ∧
    ∀ c ∈ serItemdata [[(['k'], ['v'])], []], isSpaceChar c = false :=
  ⟨(C9_itemdata_roundtrip [['m']] [[(['k'], ['v'])], []] emptyFS).1,
   (C9_itemdata_roundtrip [['m']] [[(['k'], ['v'])], []] emptyFS).2 (by decide)⟩
